import Mathlib

/-!
Shallow embedding of the RAG core of the repository: the text chunker
(components/ragUi/text-chunker.ts and lib/rag-file-manager.ts), the
corpus managers (rag-file-manager.ts, google-rag-service, rag-persistence),
the lexical search engine (search-engine.ts), the vector similarity and
context assembly (rag-search / rag-service.ts getContext), together with
theorems settling the frozen claims about them.

JavaScript machine integers and character indices are modelled as Nat or
Int with explicit truncation where the source can go negative; scores are
modelled as exact rationals; JS strings are Lean strings, manipulated
through explicit helpers that mirror slice, trim, indexOf and toLowerCase.
-/

/-- Whitespace test used by the model of String.prototype.trim. -/
def isWsChar (c : Char) : Bool := c.isWhitespace

/-- Model of String.prototype.trim on the character list. -/
def trimChars (l : List Char) : List Char :=
  ((l.dropWhile isWsChar).reverse.dropWhile isWsChar).reverse

/-- Model of String.prototype.trim. -/
def jsTrim (s : String) : String := String.mk (trimChars s.toList)

/-- Model of String.prototype.toLowerCase (per code point). -/
def jsToLower (s : String) : String := String.mk (s.toList.map Char.toLower)

/-- Model of String.prototype.slice(a, b) for nonnegative clamped indices;
a start past the end or past b yields the empty span, as in JS. -/
def jsSlice (l : List Char) (a b : Nat) : List Char := (l.drop a).take (b - a)

/-- Scan for a character starting at absolute position i. -/
def indexOfFromAux (c : Char) : List Char → Nat → Option Nat
  | [], _ => none
  | x :: xs, i => if x = c then some i else indexOfFromAux c xs (i + 1)

/-- Model of String.prototype.indexOf(c, start) returning none for -1;
a negative JS fromIndex is clamped to 0, which Nat subtraction at the
call sites reproduces. -/
def indexOfFrom (l : List Char) (c : Char) (start : Nat) : Option Nat :=
  indexOfFromAux c (l.drop start) start

/-- Chunk record from components/ragUi and lib types.ts. -/
structure Chunk where
  id : String
  content : String
  fileId : String
  fileName : String
  startIndex : Nat
  endIndex : Nat
  deriving DecidableEq

/-- FileInfo record from types.ts; the fileType and pageCount fields play
no role in the claims and are omitted.  The error field is a JS
string-or-undefined, modelled as Option String. -/
structure FileInfo where
  id : String
  name : String
  size : Nat
  content : String
  characterCount : Nat
  indexed : Bool
  error : Option String
  deriving DecidableEq

/-- Search result record from types.ts; scores are exact rationals. -/
structure SearchResult where
  chunk : Chunk
  score : ℚ
  content : String
  deriving DecidableEq

/-- One candidate sentence boundary of the chunker: the first occurrence
of c at or after endIndex - 100, accepted when it lies before
endIndex + 100 (text-chunker.ts lines 46-59). -/
def snapAt (text : List Char) (endIndex : Nat) (c : Char) : Option Nat :=
  match indexOfFrom text c (endIndex - 100) with
  | some p => if p < endIndex + 100 then some (p + 1) else none
  | none => none

/-- The adjusted chunk end: when the naive edge is strictly inside the
text, try to snap just past a period, question mark, exclamation mark or
newline, in that order (text-chunker.ts lines 44-60). -/
def actualEnd (text : List Char) (endIndex : Nat) : Nat :=
  if endIndex < text.length then
    match snapAt text endIndex '.' with
    | some e => e
    | none =>
      match snapAt text endIndex '?' with
      | some e => e
      | none =>
        match snapAt text endIndex '!' with
        | some e => e
        | none =>
          match snapAt text endIndex '\n' with
          | some e => e
          | none => endIndex
  else endIndex

/-- Chunk constructor: the id is fileId-startIndex (text-chunker.ts line 67). -/
def mkChunk (fileId fileName : String) (startIndex endIndex : Nat) (content : String) : Chunk :=
  ⟨fileId ++ "-" ++ toString startIndex, content, fileId, fileName, startIndex, endIndex⟩

/-- The chunking loop shared by createTextChunker.chunkText and
rag-file-manager processFileInBatches (text-chunker.ts lines 38-87).
The fuel argument is the iteration ceiling maxIterations; the result
pairs the produced chunks with the number of loop iterations executed. -/
def chunkLoop (text : List Char) (fileId fileName : String) (chunkSize overlap : Nat) :
    Nat → Nat → List Chunk × Nat
  | 0, _ => ([], 0)
  | fuel + 1, startIndex =>
    if startIndex < text.length then
      let endIndex := min (startIndex + chunkSize) text.length
      let aEnd := actualEnd text endIndex
      let content := String.mk (trimChars (jsSlice text startIndex aEnd))
      let acc := if content.length > 50 then [mkChunk fileId fileName startIndex aEnd content] else []
      let newStart := aEnd - overlap
      let nextStart := if newStart ≤ startIndex then aEnd else newStart
      let rest := chunkLoop text fileId fileName chunkSize overlap fuel nextStart
      (acc ++ rest.1, rest.2 + 1)
    else ([], 0)

/-- Ceiling division on Nat, the value of Math.ceil(a / b) for b > 0. -/
def ceilDiv (a b : Nat) : Nat := (a + b - 1) / b

/-- The safety iteration ceiling of the chunking loop
(text-chunker.ts line 35). -/
def chunkerMaxIterations (len chunkSize overlap : Nat) : Nat :=
  ceilDiv len (chunkSize - overlap) + 100

/-- createTextChunker.chunkText: validation and coercion followed by the
chunking loop.  Math.floor(chunkSize * 0.2) on a positive integer
chunkSize is flooring division by 5. -/
def chunkText (text : String) (fileId fileName : String)
    (chunkSize : Int := 800) (overlap : Int := 150) : List Chunk :=
  if (jsTrim text).length = 0 then []
  else if chunkSize ≤ 0 ∨ overlap < 0 then []
  else
    let cs := chunkSize.toNat
    let ov := if overlap ≥ chunkSize then cs / 5 else overlap.toNat
    (chunkLoop text.toList fileId fileName cs ov (chunkerMaxIterations text.length cs ov) 0).1

/-- rag-file-manager processFileInBatches: the same loop with fixed
chunkSize 800 and overlap 150 and no input validation
(rag-file-manager.ts lines 161-241). -/
def processFileInBatches (file : FileInfo) : List Chunk :=
  (chunkLoop file.content.toList file.id file.name 800 150
    (chunkerMaxIterations file.content.length 800 150) 0).1

/-- JS truthiness of the error field: undefined and the empty string are
both falsy. -/
def errTruthy : Option String → Bool
  | none => false
  | some s => !(s == "")

/-- State owned by createRAGFileManager. -/
structure FMState where
  chunks : List Chunk
  files : List FileInfo
  deriving DecidableEq

/-- The valid-file filter of rag-file-manager addFiles (line 25):
not errored, content truthy, and trimmed content nonempty. -/
def fmValidFile (f : FileInfo) : Bool :=
  !errTruthy f.error && !(f.content == "") && (jsTrim f.content).length > 0

/-- Sum of the characterCount fields of a file list. -/
def sumChars (files : List FileInfo) : Nat := (files.map (·.characterCount)).sum

/-- Total character ceiling of rag-file-manager (MAX_TOTAL_CHARS). -/
def MAX_TOTAL_CHARS : Nat := 10000000

/-- Global chunk-count ceiling of rag-file-manager (MAX_CHUNKS_IN_MEMORY). -/
def FM_MAX_CHUNKS : Nat := 10000

/-- Per-file size ceiling of rag-file-manager (MAX_FILE_SIZE). -/
def MAX_FILE_SIZE : Nat := 500000

/-- createRAGFileManager.addFiles (rag-file-manager.ts lines 23-44):
filter the batch, and reject it whole when the character ceiling would
be exceeded. -/
def fmAddFiles (st : FMState) (newFiles : List FileInfo) : FMState :=
  let validFiles := newFiles.filter fmValidFile
  if sumChars st.files + sumChars validFiles > MAX_TOTAL_CHARS then st
  else { st with files := st.files ++ validFiles }

/-- Skip condition inside the indexing loop (rag-file-manager.ts line 92):
errored, falsy or whitespace-only content. -/
def fmSkipFile (f : FileInfo) : Bool :=
  errTruthy f.error || f.content == "" || (jsTrim f.content).length == 0

/-- Per-file step of rag-file-manager indexFiles (lines 89-137): skip or
fail the file, or append all of its chunks; the chunk-count ceiling makes
the file contribute nothing and marks it failed.  The JS catch branch is
unreachable here because processFileInBatches is total. -/
def fmProcessFile (chunks : List Chunk) (f : FileInfo) : List Chunk × FileInfo :=
  if fmSkipFile f then (chunks, f)
  else if f.content.length > MAX_FILE_SIZE then
    (chunks, { f with error := some ("File too large for processing") })
  else
    let fileChunks := processFileInBatches f
    if chunks.length + fileChunks.length > FM_MAX_CHUNKS then
      (chunks, { f with error := some ("Memory limit reached during processing") })
    else
      (chunks ++ fileChunks, { f with indexed := true })

/-- Fold step accumulating the chunk list and the updated file records. -/
def fmBatchStep (acc : List Chunk × List FileInfo) (f : FileInfo) : List Chunk × List FileInfo :=
  let r := fmProcessFile acc.1 f
  (r.1, acc.2 ++ [r.2])

/-- Batch loop of rag-file-manager indexFiles (lines 77-144): files are
taken five at a time, with a wall-clock check at each batch boundary
modelled by the oracle timeoutAt; when the loop stops early the remaining
files are left unprocessed.  The fuel argument counts the remaining
iterations of the JS for loop, which steps its index by five. -/
def fmIndexGo (timeoutAt : Nat → Bool) :
    Nat → List FileInfo → Nat → List Chunk × List FileInfo → List Chunk × List FileInfo
  | 0, rest, _, acc => (acc.1, acc.2 ++ rest)
  | fuel + 1, rest, b, acc =>
    if timeoutAt b then (acc.1, acc.2 ++ rest)
    else
      let acc2 := (rest.take 5).foldl fmBatchStep acc
      fmIndexGo timeoutAt fuel (rest.drop 5) (b + 1) acc2

/-- createRAGFileManager.indexFiles: previous chunks are discarded and
the batch loop runs from an empty corpus for exactly ceil(n / 5)
iterations, as the JS for loop does. -/
def fmIndexFiles (timeoutAt : Nat → Bool) (files : List FileInfo) : List Chunk × List FileInfo :=
  fmIndexGo timeoutAt (ceilDiv files.length 5) files 0 ([], [])

/-- Corpus state of the Google RAG service: the chunk list and its
parallel embedding list. -/
structure GRSState where
  chunks : List Chunk
  embeddings : List (List ℚ)
  deriving DecidableEq

/-- google-rag-service removeFile (part_003 lines 152-166): chunks are
filtered first, and the embedding filter then indexes into the ALREADY
FILTERED chunk list, exactly as the source does. -/
def grsRemoveFile (st : GRSState) (fileId : String) : GRSState :=
  let chunks2 := st.chunks.filter (fun c => !(c.fileId == fileId))
  let embeddings2 := (st.embeddings.enum.filter (fun p =>
      match chunks2.get? p.1 with
      | some c => !(c.fileId == fileId)
      | none => false)).map (·.2)
  ⟨chunks2, embeddings2⟩

/-- google-rag-service isRAGAvailable (part_003 lines 313-317). -/
def grsIsRAGAvailable (st : GRSState) : Bool :=
  st.chunks.length > 0 && st.embeddings.length > 0

/-- State of RAGPersistenceService (rag-persistence, part_001). -/
structure PersistState where
  files : List FileInfo
  chunks : List Chunk
  embeddings : List (List ℚ)
  deriving DecidableEq

/-- RAGPersistenceService.removeFile (part_001 lines 99-110): files and
chunks are filtered; fileChunks is then computed from the already
filtered chunk list (hence always empty), and the embedding filter also
indexes into the filtered chunk list, exactly as the source does. -/
def persistRemoveFile (st : PersistState) (fileId : String) : PersistState :=
  let files2 := st.files.filter (fun f => !(f.id == fileId))
  let chunks2 := st.chunks.filter (fun c => !(c.fileId == fileId))
  let fileChunks := chunks2.filter (fun c => c.fileId == fileId)
  let chunkIds := fileChunks.map (·.id)
  let embeddings2 := (st.embeddings.enum.filter (fun p =>
      match chunks2.get? p.1 with
      | some c => !(chunkIds.contains c.id)
      | none => false)).map (·.2)
  ⟨files2, chunks2, embeddings2⟩

/-- Oracle for the embedding provider inside one indexing run: for batch
b and item i, timeoutAt gives the 30-second internal clock check of
gemini-client embedMultiple, and vecAt the vector it pushes (the provider
result on success, the random 768-dim fallback on per-item failure; both
paths push exactly one vector). -/
structure EmbedOracle where
  timeoutAt : Nat → Nat → Bool
  vecAt : Nat → Nat → List ℚ

/-- Item loop of gemini-client embedMultiple (part_005 lines 72-96):
stop at the first internal timeout, otherwise push one vector per text. -/
def embedMultipleGo (o : EmbedOracle) (b : Nat) : Nat → Nat → List (List ℚ)
  | _, 0 => []
  | i, n + 1 => if o.timeoutAt b i then [] else o.vecAt b i :: embedMultipleGo o b (i + 1) n

/-- gemini-client embedMultiple on a batch of texts; it never throws
(every await is inside its per-item try), so the result is a list of one
vector per text up to the first internal timeout. -/
def embedMultiple (o : EmbedOracle) (b : Nat) (texts : List String) : List (List ℚ) :=
  embedMultipleGo o b 0 texts.length

/-- Chunk ceiling of the Google RAG service (MAX_CHUNKS_IN_MEMORY). -/
def GRS_MAX_CHUNKS : Nat := 8000

/-- Embedding ceiling of the Google RAG service (MAX_EMBEDDINGS_IN_MEMORY). -/
def GRS_MAX_EMBEDDINGS : Nat := 4000

/-- Embedding batch loop of google-rag-service indexFiles (part_003
lines 223-250): batches of 100 chunk texts, a wall-clock check before
each batch (batchTimeout, throwing on timeout), and an early break once
the accumulated embedding count exceeds the ceiling.  The JS catch
around embedMultiple is unreachable because embedMultiple is total. -/
def grsEmbedGo (o : EmbedOracle) (batchTimeout : Nat → Bool) :
    Nat → List Chunk → Nat → List (List ℚ) → Except String (List (List ℚ))
  | 0, _, _, acc => .ok acc
  | fuel + 1, rest, b, acc =>
    if batchTimeout b then .error ("Indexing timeout - embedding generation took too long")
    else
      let batch := rest.take 100
      let chunkTexts := batch.map (·.content)
      let batchEmbeddings := embedMultiple o b chunkTexts
      let acc2 := acc ++ batchEmbeddings
      if acc2.length > GRS_MAX_EMBEDDINGS then .ok acc2
      else grsEmbedGo o batchTimeout fuel (rest.drop 100) (b + 1) acc2

/-- The embedding batch loop started on the chunk list: the JS for loop
steps its index by 100, hence runs at most ceil(n / 100) iterations. -/
def grsEmbedBatches (o : EmbedOracle) (batchTimeout : Nat → Bool)
    (chunks : List Chunk) : Except String (List (List ℚ)) :=
  grsEmbedGo o batchTimeout (ceilDiv chunks.length 100) chunks 0 []

/-- google-rag-service indexFiles (part_003 lines 173-276) with the file
manager result abstracted as newChunks: clear the corpus, check the
90-second wall clock (fmTimeout) after file-manager chunking, truncate
the chunk list at the ceiling, then generate embeddings in batches.  An
error value models the thrown timeout, after which the service resets
both lists and rethrows; a successful, non-throwing run returns ok. -/
def grsIndexFiles (o : EmbedOracle) (fmTimeout : Bool) (batchTimeout : Nat → Bool)
    (newChunks : List Chunk) : Except String GRSState :=
  if fmTimeout then .error ("Indexing timeout - file processing took too long")
  else
    let chunks := if newChunks.length > GRS_MAX_CHUNKS then newChunks.take GRS_MAX_CHUNKS else newChunks
    if chunks.length > 0 then
      match grsEmbedBatches o batchTimeout chunks with
      | .ok es => .ok ⟨chunks, es⟩
      | .error e => .error e
    else .ok ⟨chunks, []⟩

/-- Word characters of the RegExp escape backslash-w, ASCII letters,
digits and underscore. -/
def isWordChar (c : Char) : Bool := c.isAlphanum || c == '_'

/-- Word-character test lifted to an optional character; none stands for
the absent character beyond either end of the haystack. -/
def isWordOpt : Option Char → Bool
  | none => false
  | some c => isWordChar c

/-- Parser state of the simplified RegExp compilation model: what the
previous pattern element was. -/
inductive PrevElem
  | start
  | atom
  | quant
  | lazy
  deriving DecidableEq

/-- Simplified model of ECMAScript RegExp compilation, covering the
SyntaxError class the search engine can actually hit: a quantifier with
nothing to repeat.  An escape of b or B is a boundary assertion and not
quantifiable; any other escaped character, and any character without a
special reading here, counts as a quantifiable atom; an opening group
resets the state.  Constructs outside this fragment are treated
permissively as valid. -/
def regexOk : PrevElem → List Char → Bool
  | _, [] => true
  | _, '\\' :: [] => false
  | _, '\\' :: c :: rest =>
    if c == 'b' || c == 'B' then regexOk .start rest else regexOk .atom rest
  | p, '*' :: rest => p == .atom && regexOk .quant rest
  | p, '+' :: rest => p == .atom && regexOk .quant rest
  | p, '?' :: rest =>
    match p with
    | .atom => regexOk .quant rest
    | .quant => regexOk .lazy rest
    | _ => false
  | _, '(' :: rest => regexOk .start rest
  | _, _ :: rest => regexOk .atom rest

/-- The pattern backslash-b word backslash-b built by the search engine
(search-engine.ts line 44). -/
def wordPattern (w : String) : List Char :=
  ('\\' :: 'b' :: w.toList) ++ ['\\', 'b']

/-- The prefix pattern backslash-b stem built for stemmed matching
(search-engine.ts line 55). -/
def stemPattern (w : String) : List Char := '\\' :: 'b' :: w.toList

/-- Counter of non-overlapping occurrences of the literal pattern
p :: ps in the haystack, in left-to-right global-flag order, requiring a
word boundary before the match and, when needRight is set, one after it.
prev is the character just before the current scan position. -/
def countPatAux (p : Char) (ps : List Char) (needRight : Bool) :
    Option Char → List Char → Nat
  | _, [] => 0
  | prev, h :: t =>
    if (p :: ps).isPrefixOf (h :: t)
        && (isWordOpt prev != isWordChar p)
        && (!needRight || (isWordChar (ps.getLastD p) != isWordOpt ((h :: t).get? (ps.length + 1))))
    then 1 + countPatAux p ps needRight (some (ps.getLastD p)) (t.drop ps.length)
    else countPatAux p ps needRight (some h) t
  termination_by _ hay => hay.length
  decreasing_by
    · simp [List.length_drop]; omega
    · simp

/-- Occurrence count of a whole-word match, both boundaries required. -/
def countBoth (hay w : List Char) : Nat :=
  match w with
  | [] => 0
  | p :: ps => countPatAux p ps true none hay

/-- Occurrence count of a word-prefix match, left boundary only. -/
def countPre (hay w : List Char) : Nat :=
  match w with
  | [] => 0
  | p :: ps => countPatAux p ps false none hay

/-- Model of String.prototype.includes: the pattern occurs as a
contiguous segment of the haystack. -/
def jsIncludes (hay pat : List Char) : Bool :=
  hay.tails.any (fun t => pat.isPrefixOf t)

/-- The simple stemmer of the search engine: replace of the first match
of the anchored alternation ing, ed, s, which is the longest-suffix
priority order (search-engine.ts line 53). -/
def jsStem (w : String) : String :=
  let l := w.toList
  if (['i', 'n', 'g']).isSuffixOf l then String.mk (l.take (l.length - 3))
  else if (['e', 'd']).isSuffixOf l then String.mk (l.take (l.length - 2))
  else if (['s']).isSuffixOf l then String.mk (l.take (l.length - 1))
  else w

/-- Tokenizer step: split at every whitespace character.  The JS split
on a one-or-more-whitespace pattern differs only by not emitting the
empty tokens between consecutive whitespace characters, and those are
removed by the length filter that always follows this split. -/
def splitWsGo : List Char → List Char → List String
  | [], cur => [String.mk cur.reverse]
  | c :: rest, cur =>
    if isWsChar c then String.mk cur.reverse :: splitWsGo rest []
    else splitWsGo rest (c :: cur)

/-- Whitespace tokenization of the query (search-engine.ts line 26). -/
def splitWs (l : List Char) : List String := splitWsGo l []

/-- Per-token score of a chunk (search-engine.ts lines 42-58): compiling
either RegExp may throw, modelled by the error case; otherwise 3 points
per whole-word occurrence, 1 for a substring occurrence, and 1.5 per
stem-prefix occurrence when the stem is longer than 2. -/
def scoreWord (chunkLower : List Char) (w : String) : Except String ℚ :=
  if !regexOk .start (wordPattern w) then
    .error ("SyntaxError: Invalid regular expression")
  else
    let exact := countBoth chunkLower w.toList
    let s1 : ℚ := (exact : ℚ) * 3
    let s2 : ℚ := if jsIncludes chunkLower w.toList then 1 else 0
    let stem := jsStem w
    if stem.length > 2 then
      if !regexOk .start (stemPattern stem) then
        .error ("SyntaxError: Invalid regular expression")
      else
        let stemmed := countPre chunkLower stem.toList
        .ok (s1 + s2 + (stemmed : ℚ) * ((3 : ℚ) / 2))
    else .ok (s1 + s2)

/-- Total score of one chunk (search-engine.ts lines 37-69): token scores
plus 0.5 per distinct query token found directly or via its stem, plus
0.2 for contents longer than 200 characters. -/
def scoreChunk (queryWords : List String) (c : Chunk) : Except String ℚ := do
  let chunkLower := (jsToLower c.content).toList
  let base ← queryWords.foldlM (fun acc w => do
      let s ← scoreWord chunkLower w
      pure (acc + s)) (0 : ℚ)
  let uniq := (queryWords.filter (fun w =>
      jsIncludes chunkLower w.toList || jsIncludes chunkLower (jsStem w).toList)).length
  pure (base + (uniq : ℚ) * ((1 : ℚ) / 2) +
    (if c.content.length > 200 then (1 : ℚ) / 5 else 0))

/-- Stable descending sort by score, the ES2019 stable Array.sort with
comparator on scores (search-engine.ts line 81). -/
def sortByScoreDesc (l : List SearchResult) : List SearchResult :=
  l.mergeSort (fun a b => decide (b.score ≤ a.score))

/-- createSearchEngine.search (search-engine.ts lines 8-85): guard the
empty corpus, the empty or whitespace query and the no-meaningful-token
query, then score every chunk, keep positive scores in corpus order,
sort stably by descending score and take topK.  The error case models a
RegExp SyntaxError thrown out of the unprotected scoring loop. -/
def searchLex (chunks : List Chunk) (query : String) (topK : Nat := 5) :
    Except String (List SearchResult) :=
  if chunks.length = 0 then .ok []
  else if (jsTrim query).length = 0 then .ok []
  else
    let queryLower := jsTrim (jsToLower query)
    let queryWords := (splitWs queryLower.toList).filter (fun w => w.length > 2)
    if queryWords.length = 0 then .ok []
    else do
      let results ← chunks.foldlM (fun acc c => do
          let s ← scoreChunk queryWords c
          pure (if s > 0 then acc ++ [SearchResult.mk c s c.content] else acc))
        ([] : List SearchResult)
      pure ((sortByScoreDesc results).take topK)

/-- Squared Euclidean norm of a vector, the sum under the square root in
cosineSimilarity; a JS norm of exactly 0 is equivalent to a squared norm
of exactly 0. -/
def normSq (a : List ℚ) : ℚ := (a.map (fun x => x * x)).sum

/-- The reduce computing the dot product in cosineSimilarity
(rag-search lines 106): the callback reads b at every index of a, so
when a is strictly longer than b the sum degenerates to NaN (undefined
enters the arithmetic), modelled by none; otherwise it is the exact dot
product over the indices of a. -/
def jsDot (a b : List ℚ) : Option ℚ :=
  if a.length ≤ b.length then some ((a.zipWith (fun x y => x * y) b).sum) else none

/-- createRAGSearchService.cosineSimilarity (chat-service/rag-search
lines 104-112): return 0 whenever either norm is 0, before the division
is reached; otherwise divide the dot product by the product of norms.
none models a NaN result. -/
noncomputable def cosineSimilarity (a b : List ℚ) : Option ℝ :=
  if normSq a = 0 ∨ normSq b = 0 then some 0
  else
    match jsDot a b with
    | some d => some ((d : ℝ) / (Real.sqrt ((normSq a : ℚ) : ℝ) * Real.sqrt ((normSq b : ℚ) : ℝ)))
    | none => none

/-- The attribution block appended per included result:
open bracket From colon space fileName close bracket newline content
(rag-service.ts line 149). -/
def renderResult (r : SearchResult) : String :=
  "[From: " ++ r.chunk.fileName ++ "]\n" ++ r.content

/-- Append one rendered block to the accumulated context, preceded by a
blank line when the context is already nonempty (rag-service.ts
lines 148-149). -/
def appendCtx (ctx s : String) : String :=
  (if ctx == "" then ctx else ctx ++ "\n\n") ++ s

/-- The assembly loop of getContext (rag-service.ts lines 143-151 and
the identical loop in rag-search getContext): walk the ranked results,
stop as soon as the accumulated CONTENT length plus the next content
length would pass maxLength, otherwise append the attributed block and
count only the content length toward the budget. -/
def getContextGo (maxLength : Nat) : List SearchResult → String → Nat → String
  | [], ctx, _ => ctx
  | r :: rs, ctx, cur =>
    if cur + r.content.length > maxLength then ctx
    else getContextGo maxLength rs (appendCtx ctx (renderResult r)) (cur + r.content.length)

/-- Context assembly from the ranked result list, as performed by
getContext after its search call (both createRAGService.getContext and
createRAGSearchService.getContext). -/
def getContextAssemble (results : List SearchResult) (maxLength : Nat) : String :=
  getContextGo maxLength results ("") 0

/-- Sum of the content lengths of a result list, the quantity the
assembly loop counts toward the budget. -/
def sumContentLen (results : List SearchResult) : Nat :=
  (results.map (fun r => r.content.length)).sum

/-! ### Helper lemmas -/

theorem stringLength_mk (l : List Char) : (String.mk l).length = l.length := rfl

theorem indexOfFromAux_bounds {c : Char} {l : List Char} {i p : Nat}
    (h : indexOfFromAux c l i = some p) : i ≤ p ∧ p < i + l.length := by
  induction l generalizing i with
  | nil => simp [indexOfFromAux] at h
  | cons x xs ih =>
    simp only [indexOfFromAux] at h
    split at h
    · cases h; simp
    · have := ih h
      simp only [List.length_cons]
      omega

theorem indexOfFrom_bounds {l : List Char} {c : Char} {s p : Nat}
    (h : indexOfFrom l c s = some p) : s ≤ p ∧ p < l.length := by
  have hb := indexOfFromAux_bounds h
  have hd : (l.drop s).length = l.length - s := List.length_drop s l
  omega

theorem snapAt_bounds {text : List Char} {e : Nat} {c : Char} {p : Nat}
    (h : snapAt text e c = some p) : p ≤ text.length ∧ p ≤ e + 100 := by
  unfold snapAt at h
  cases hq : indexOfFrom text c (e - 100) with
  | none => rw [hq] at h; cases h
  | some q =>
    rw [hq] at h
    have := indexOfFrom_bounds hq
    simp only [] at h
    by_cases hlt : q < e + 100
    · rw [if_pos hlt] at h; cases h; omega
    · rw [if_neg hlt] at h; cases h

theorem actualEnd_bounds (text : List Char) (e : Nat) (he : e ≤ text.length) :
    actualEnd text e ≤ text.length ∧ actualEnd text e ≤ e + 100 := by
  simp only [actualEnd]
  split
  · split
    · rename_i h1; exact snapAt_bounds h1
    · split
      · rename_i h2; exact snapAt_bounds h2
      · split
        · rename_i h3; exact snapAt_bounds h3
        · split
          · rename_i h4; exact snapAt_bounds h4
          · omega
  · omega

theorem length_dropWhile_le (p : Char → Bool) (l : List Char) :
    (l.dropWhile p).length ≤ l.length := by
  induction l with
  | nil => simp
  | cons a l ih =>
    simp only [List.dropWhile]
    split
    · simp only [List.length_cons]; omega
    · simp

theorem trimChars_length_le (l : List Char) : (trimChars l).length ≤ l.length := by
  simp only [trimChars, List.length_reverse]
  calc ((l.dropWhile isWsChar).reverse.dropWhile isWsChar).length
      ≤ (l.dropWhile isWsChar).reverse.length := length_dropWhile_le _ _
    _ = (l.dropWhile isWsChar).length := List.length_reverse _
    _ ≤ l.length := length_dropWhile_le _ _

theorem jsSlice_length_le (l : List Char) (a b : Nat) : (jsSlice l a b).length ≤ b - a := by
  simp only [jsSlice]
  calc ((l.drop a).take (b - a)).length ≤ b - a := by
        simp [List.length_take]

theorem chunkLoop_iterations_le (text : List Char) (fid fn : String) (cs ov : Nat) :
    ∀ fuel s, (chunkLoop text fid fn cs ov fuel s).2 ≤ fuel := by
  intro fuel
  induction fuel with
  | zero => intro s; simp [chunkLoop]
  | succ n ih =>
    intro s
    simp only [chunkLoop]
    split
    · have := ih (if actualEnd text (min (s + cs) text.length) - ov ≤ s
        then actualEnd text (min (s + cs) text.length)
        else actualEnd text (min (s + cs) text.length) - ov)
      simpa using this
    · simp

theorem chunkLoop_content_gt (text : List Char) (fid fn : String) (cs ov : Nat) :
    ∀ fuel s c, c ∈ (chunkLoop text fid fn cs ov fuel s).1 → 50 < c.content.length := by
  intro fuel
  induction fuel with
  | zero => intro s c hc; simp [chunkLoop] at hc
  | succ n ih =>
    intro s c hc
    simp only [chunkLoop] at hc
    split at hc
    · simp only [List.mem_append] at hc
      rcases hc with hc | hc
      · split at hc
        · rename_i hgt
          simp only [List.mem_singleton] at hc
          subst hc
          simpa [mkChunk, stringLength_mk] using hgt
        · simp at hc
      · exact ih _ c hc
    · simp at hc

theorem chunkLoop_span_bounds (text : List Char) (fid fn : String) (cs ov : Nat) :
    ∀ fuel s c, c ∈ (chunkLoop text fid fn cs ov fuel s).1 →
      c.endIndex ≤ text.length ∧ c.endIndex - c.startIndex ≤ cs + 100 ∧
        c.content.length ≤ cs + 100 := by
  intro fuel
  induction fuel with
  | zero => intro s c hc; simp [chunkLoop] at hc
  | succ n ih =>
    intro s c hc
    simp only [chunkLoop] at hc
    split at hc
    · simp only [List.mem_append] at hc
      rcases hc with hc | hc
      · split at hc
        · simp only [List.mem_singleton] at hc
          subst hc
          have hmin : min (s + cs) text.length ≤ text.length := by omega
          have hae := actualEnd_bounds text (min (s + cs) text.length) hmin
          have hcl : (String.mk (trimChars (jsSlice text s (actualEnd text (min (s + cs) text.length))))).length
              ≤ actualEnd text (min (s + cs) text.length) - s := by
            rw [stringLength_mk]
            exact le_trans (trimChars_length_le _) (jsSlice_length_le _ _ _)
          refine ⟨?_, ?_, ?_⟩ <;> simp only [mkChunk] <;> omega
        · simp at hc
      · exact ih _ c hc
    · simp at hc

theorem chunkLoop_fileId (text : List Char) (fid fn : String) (cs ov : Nat) :
    ∀ fuel s c, c ∈ (chunkLoop text fid fn cs ov fuel s).1 → c.fileId = fid := by
  intro fuel
  induction fuel with
  | zero => intro s c hc; simp [chunkLoop] at hc
  | succ n ih =>
    intro s c hc
    simp only [chunkLoop] at hc
    split at hc
    · simp only [List.mem_append] at hc
      rcases hc with hc | hc
      · split at hc
        · simp only [List.mem_singleton] at hc
          subst hc
          rfl
        · simp at hc
      · exact ih _ c hc
    · simp at hc

/-! ### Claim C7 -/

/-- C7: for every input text and every valid configuration with
chunkSize > 0 and 0 ≤ overlap < chunkSize, the chunking loop of
chunkText executes at most chunkerMaxIterations =
ceil(len(text) / (chunkSize - overlap)) + 100 iterations, and every
chunk returned by chunkText has content (stored trimmed) of length
strictly greater than 50. -/
theorem chunkText_termination_bound (text fid fn : String) (chunkSize overlap : Int)
    (h1 : 0 < chunkSize) (h2 : 0 ≤ overlap) (h3 : overlap < chunkSize) :
    (chunkLoop text.toList fid fn chunkSize.toNat overlap.toNat
        (chunkerMaxIterations text.length chunkSize.toNat overlap.toNat) 0).2 ≤
      chunkerMaxIterations text.length chunkSize.toNat overlap.toNat ∧
    ∀ c ∈ chunkText text fid fn chunkSize overlap, 50 < c.content.length := by
  constructor
  · exact chunkLoop_iterations_le _ _ _ _ _ _ _
  · intro c hc
    simp only [chunkText] at hc
    split at hc
    · simp at hc
    · split at hc
      · simp at hc
      · rw [if_neg (by omega : ¬ overlap ≥ chunkSize)] at hc
        exact chunkLoop_content_gt _ _ _ _ _ _ _ c hc

/-- Witness for C7 at a concrete text and the default configuration. -/
theorem chunkText_termination_bound_witness :
    (chunkLoop ("Hello world. This is a test.").toList ("f") ("n") (800 : Int).toNat
        (150 : Int).toNat
        (chunkerMaxIterations ("Hello world. This is a test.").length (800 : Int).toNat
          (150 : Int).toNat) 0).2 ≤
      chunkerMaxIterations ("Hello world. This is a test.").length (800 : Int).toNat
        (150 : Int).toNat ∧
    ∀ c ∈ chunkText ("Hello world. This is a test.") ("f") ("n") 800 150,
      50 < c.content.length :=
  chunkText_termination_bound ("Hello world. This is a test.") ("f") ("n") 800 150
    (by decide) (by decide) (by decide)

/-! ### Claim C8 -/

/-- C8: chunkText input validation: chunkSize at most 0 or negative
overlap gives the empty sequence; empty or whitespace-only text gives
the empty sequence; overlap at least chunkSize is coerced to
Math.floor(0.2 * chunkSize), that is flooring division of the integral
chunkSize by 5, after which chunking proceeds normally. -/
theorem chunkText_validation (text fid fn : String) (chunkSize overlap : Int) :
    (chunkSize ≤ 0 ∨ overlap < 0 → chunkText text fid fn chunkSize overlap = []) ∧
    ((jsTrim text).length = 0 → chunkText text fid fn chunkSize overlap = []) ∧
    (0 < chunkSize → chunkSize ≤ overlap →
      chunkText text fid fn chunkSize overlap =
        chunkText text fid fn chunkSize (chunkSize / 5)) := by
  refine ⟨?_, ?_, ?_⟩
  · intro h
    simp only [chunkText]
    split_ifs with hc1 hc2 <;> first | rfl | exact absurd h hc2
  · intro h
    simp only [chunkText]
    split_ifs with hc1 hc2 <;> first | rfl | exact absurd h hc1
  · intro h1 h2
    have htn : (chunkSize / 5).toNat = chunkSize.toNat / 5 := by omega
    simp only [chunkText]
    split_ifs <;> first | rfl | omega | rw [htn]

/-- Witness for C8: each validation branch exercised at concrete inputs. -/
theorem chunkText_validation_witness :
    chunkText ("abc") ("f") ("n") (-1) 0 = [] ∧
    chunkText ("   ") ("f") ("n") 800 150 = [] ∧
    chunkText ("abc") ("f") ("n") 10 12 = chunkText ("abc") ("f") ("n") 10 (10 / 5) :=
  ⟨(chunkText_validation ("abc") ("f") ("n") (-1) 0).1 (Or.inl (by decide)),
    (chunkText_validation ("   ") ("f") ("n") 800 150).2.1 (by decide),
    (chunkText_validation ("abc") ("f") ("n") 10 12).2.2 (by decide) (by decide)⟩

/-! ### Claim C10 -/

/-- C10: for every text and valid configuration (chunkSize > 0,
0 ≤ overlap < chunkSize), every chunk returned by chunkText spans
offsets with endIndex at most len(text) and endIndex - startIndex at
most chunkSize + 100, and its content length is at most
chunkSize + 100. -/
theorem chunkText_span_bounds (text fid fn : String) (chunkSize overlap : Int)
    (h1 : 0 < chunkSize) (h2 : 0 ≤ overlap) (h3 : overlap < chunkSize) :
    ∀ c ∈ chunkText text fid fn chunkSize overlap,
      c.endIndex ≤ text.length ∧
      (c.endIndex : Int) - (c.startIndex : Int) ≤ chunkSize + 100 ∧
      (c.content.length : Int) ≤ chunkSize + 100 := by
  intro c hc
  simp only [chunkText] at hc
  split at hc
  · simp at hc
  · split at hc
    · simp at hc
    · rw [if_neg (by omega : ¬ overlap ≥ chunkSize)] at hc
      have hb := chunkLoop_span_bounds text.toList fid fn chunkSize.toNat overlap.toNat _ _ c hc
      have hcs : (chunkSize.toNat : Int) = chunkSize := Int.toNat_of_nonneg h1.le
      have hlen : text.toList.length = text.length := rfl
      exact ⟨by omega, by omega, by omega⟩

/-- Witness for C10: the bounds at the one concrete chunk produced from a
concrete text under the default configuration. -/
theorem chunkText_span_bounds_witness :
    (Chunk.mk ("f-0") ("Hello world. This is a test sentence that has more than fifty characters in it!") ("f") ("n") 0 79).endIndex ≤ ("Hello world. This is a test sentence that has more than fifty characters in it!").length ∧
    ((Chunk.mk ("f-0") ("Hello world. This is a test sentence that has more than fifty characters in it!") ("f") ("n") 0 79).endIndex : Int) - ((Chunk.mk ("f-0") ("Hello world. This is a test sentence that has more than fifty characters in it!") ("f") ("n") 0 79).startIndex : Int) ≤ 800 + 100 ∧
    ((Chunk.mk ("f-0") ("Hello world. This is a test sentence that has more than fifty characters in it!") ("f") ("n") 0 79).content.length : Int) ≤ 800 + 100 :=
  chunkText_span_bounds ("Hello world. This is a test sentence that has more than fifty characters in it!") ("f") ("n") 800 150
    (by decide) (by decide) (by decide) (Chunk.mk ("f-0") ("Hello world. This is a test sentence that has more than fifty characters in it!") ("f") ("n") 0 79) (by decide)

/-! ### Claim C5 -/

/-- C5: when the non-errored, non-empty-content documents of an incoming
batch would push the stored character total over the 10,000,000 ceiling,
fmAddFiles leaves the whole state (registry and chunks) unchanged and
admits nothing. -/
theorem fmAddFiles_rejects_batch (st : FMState) (newFiles : List FileInfo)
    (h : sumChars st.files + sumChars (newFiles.filter fmValidFile) > MAX_TOTAL_CHARS) :
    fmAddFiles st newFiles = st := by
  simp only [fmAddFiles]
  rw [if_pos h]

/-- Witness for C5: one oversized valid file against an empty registry. -/
theorem fmAddFiles_rejects_batch_witness :
    fmAddFiles ⟨[], []⟩ [FileInfo.mk ("A") ("a") 1 ("x") 10000001 false none] = ⟨[], []⟩ :=
  fmAddFiles_rejects_batch _ _ (by decide)

/-! ### Claim C4 -/

theorem getContextGo_spec (maxLength : Nat) (rs : List SearchResult) :
    ∀ (ctx : String) (cur : Nat), ∃ k,
      getContextGo maxLength rs ctx cur =
        List.foldl appendCtx ctx ((rs.take k).map renderResult) ∧
      cur + sumContentLen (rs.take k) ≤ max cur maxLength := by
  induction rs with
  | nil =>
    intro ctx cur
    refine ⟨0, by simp [getContextGo], ?_⟩
    simp only [List.take_nil, sumContentLen, List.map_nil, List.sum_nil]
    omega
  | cons r rs ih =>
    intro ctx cur
    by_cases h : cur + r.content.length > maxLength
    · refine ⟨0, ?_, ?_⟩
      · simp [getContextGo, h]
      · simp only [List.take_zero, sumContentLen, List.map_nil, List.sum_nil]
        omega
    · obtain ⟨k, hk1, hk2⟩ := ih (appendCtx ctx (renderResult r)) (cur + r.content.length)
      refine ⟨k + 1, ?_, ?_⟩
      · simpa [getContextGo, h, List.take_succ_cons] using hk1
      · simp only [List.take_succ_cons, sumContentLen, List.map_cons, List.sum_cons] at hk2 ⊢
        omega

/-- C4: the context assembled from a ranked result list never lets the
counted content budget pass maxLength and never truncates a chunk: the
result is the blockwise rendering of an initial prefix of the ranked
list whose total content length is at most maxLength; and when the very
first content alone exceeds maxLength the result is empty. -/
theorem getContextAssemble_budget (results : List SearchResult) (maxLength : Nat) :
    (∃ k, getContextAssemble results maxLength =
        List.foldl appendCtx ("") ((results.take k).map renderResult) ∧
      sumContentLen (results.take k) ≤ maxLength) ∧
    (∀ r rs, results = r :: rs → maxLength < r.content.length →
      getContextAssemble results maxLength = "") := by
  constructor
  · obtain ⟨k, h1, h2⟩ := getContextGo_spec maxLength results ("") 0
    exact ⟨k, h1, by omega⟩
  · intro r rs hre hlen
    subst hre
    simp only [getContextAssemble, getContextGo]
    rw [if_pos (by omega : 0 + r.content.length > maxLength)]

/-- Counterexample against C4 as stated: the assembled string itself
exceeds the budget, because the attribution header and separators are
not counted against maxLength. -/
theorem getContextAssemble_budget_counterexample :
    getContextAssemble
        [SearchResult.mk (Chunk.mk ("c-0") ("0123456789") ("f") ("f") 0 10) 1 ("0123456789")]
        10 = "[From: f]\n0123456789" ∧
    ¬((getContextAssemble
        [SearchResult.mk (Chunk.mk ("c-0") ("0123456789") ("f") ("f") 0 10) 1 ("0123456789")]
        10).length ≤ 10) := by
  constructor
  · rfl
  · decide

/-- Witness for C4 at a concrete ranked list whose first content exceeds
the budget. -/
theorem getContextAssemble_budget_witness :
    getContextAssemble
        [SearchResult.mk (Chunk.mk ("c-1") ("abcdef") ("f") ("f") 0 6) 1 ("abcdef")] 5 = "" :=
  (getContextAssemble_budget _ 5).2 _ [] rfl (by decide)

/-! ### Claim C9 -/

/-- C9 (amended): whenever the first vector is no longer than the second,
cosineSimilarity is never NaN, returns exactly 0 when either norm is 0,
and otherwise returns the dot product divided by the product of norms. -/
theorem cosineSimilarity_spec (a b : List ℚ) (h : a.length ≤ b.length) :
    cosineSimilarity a b ≠ none ∧
    ((normSq a = 0 ∨ normSq b = 0) → cosineSimilarity a b = some 0) ∧
    (¬(normSq a = 0 ∨ normSq b = 0) →
      cosineSimilarity a b =
        some ((((a.zipWith (fun x y => x * y) b).sum : ℚ) : ℝ) /
          (Real.sqrt ((normSq a : ℚ) : ℝ) * Real.sqrt ((normSq b : ℚ) : ℝ)))) := by
  refine ⟨?_, ?_, ?_⟩
  · by_cases h0 : normSq a = 0 ∨ normSq b = 0
    · simp [cosineSimilarity, h0]
    · simp [cosineSimilarity, h0, jsDot, h]
  · intro h0
    simp [cosineSimilarity, h0]
  · intro h0
    simp [cosineSimilarity, h0, jsDot, h]

/-- Counterexample against C9 as stated for arbitrary lengths: a strictly
longer first vector with nonzero norms makes the JS reduce read past the
second vector, and the result is NaN. -/
theorem cosineSimilarity_spec_counterexample : cosineSimilarity [1, 1] [1] = none := by
  norm_num [cosineSimilarity, normSq, jsDot]

/-- Witness for C9 at concrete vectors of admissible lengths. -/
theorem cosineSimilarity_spec_witness : cosineSimilarity [1] [1, 0] ≠ none :=
  (cosineSimilarity_spec [1] [1, 0] (by decide)).1

/-! ### Claim C2 -/

/-- C2: evaluating both removeFile implementations at a two-file corpus
shows the embedding filter indexing into the already filtered chunk
list: removing file f1 keeps the embedding vector [1] that belonged to
the removed chunk of f1 (a positional prefix of the old embedding list)
instead of the vector [2] that was aligned with the surviving chunk of
f2, so the surviving chunk ends up paired with the wrong embedding. -/
theorem removeFile_misaligned :
    grsRemoveFile
        ⟨[Chunk.mk ("A-0") ("alpha") ("f1") ("a.txt") 0 5,
          Chunk.mk ("B-0") ("beta") ("f2") ("b.txt") 0 4], [[1], [2]]⟩ ("f1") =
      ⟨[Chunk.mk ("B-0") ("beta") ("f2") ("b.txt") 0 4], [[1]]⟩ ∧
    (grsRemoveFile
        ⟨[Chunk.mk ("A-0") ("alpha") ("f1") ("a.txt") 0 5,
          Chunk.mk ("B-0") ("beta") ("f2") ("b.txt") 0 4], [[1], [2]]⟩ ("f1")).embeddings ≠
      [[2]] ∧
    persistRemoveFile
        ⟨[], [Chunk.mk ("A-0") ("alpha") ("f1") ("a.txt") 0 5,
          Chunk.mk ("B-0") ("beta") ("f2") ("b.txt") 0 4], [[1], [2]]⟩ ("f1") =
      ⟨[], [Chunk.mk ("B-0") ("beta") ("f2") ("b.txt") 0 4], [[1]]⟩ := by
  refine ⟨by decide, by decide, by decide⟩

/-! ### Claim C3 -/

/-- C3: lexical search is not total: with a nonempty chunk list, the
query c++ survives tokenization (length 3) and is interpolated into the
word-boundary RegExp, whose compilation raises a SyntaxError (a
quantifier with nothing to repeat); createSearchEngine.search has no
handler, so the call throws instead of returning a ranked list. -/
theorem searchLex_throws_on_metachar :
    searchLex [Chunk.mk ("c-0") ("hello world") ("f") ("f.txt") 0 11] ("c++") 5 =
      .error ("SyntaxError: Invalid regular expression") := by
  rfl

/-! ### Claim C1 -/

theorem embedMultipleGo_length (o : EmbedOracle) (b : Nat)
    (ht : ∀ i, o.timeoutAt b i = false) : ∀ n i, (embedMultipleGo o b i n).length = n := by
  intro n
  induction n with
  | zero => intro i; rfl
  | succ m ih =>
    intro i
    simp only [embedMultipleGo, ht i, if_neg Bool.false_ne_true, List.length_cons, ih (i + 1)]

theorem grsEmbedGo_ok_length (o : EmbedOracle) (bt : Nat → Bool)
    (ht : ∀ b i, o.timeoutAt b i = false) :
    ∀ fuel (rest : List Chunk) (b : Nat) (acc : List (List ℚ)) (es : List (List ℚ)),
      ceilDiv rest.length 100 ≤ fuel →
      acc.length + rest.length ≤ GRS_MAX_EMBEDDINGS →
      grsEmbedGo o bt fuel rest b acc = .ok es →
      es.length = acc.length + rest.length := by
  intro fuel
  induction fuel with
  | zero =>
    intro rest b acc es hfuel hcap hok
    have hr : rest.length = 0 := by simp only [ceilDiv] at hfuel; omega
    cases hok
    simp [hr]
  | succ m ih =>
    intro rest b acc es hfuel hcap hok
    simp only [grsEmbedGo] at hok
    split at hok
    · cases hok
    · split at hok
      · rename_i hbreak
        have hlb : (embedMultiple o b ((rest.take 100).map (·.content))).length =
            min 100 rest.length := by
          simp [embedMultiple, embedMultipleGo_length o b (ht b), List.length_take]
        rw [List.length_append, hlb] at hbreak
        simp only [GRS_MAX_EMBEDDINGS] at hbreak hcap
        omega
      · have hlb : (embedMultiple o b ((rest.take 100).map (·.content))).length =
            min 100 rest.length := by
          simp [embedMultiple, embedMultipleGo_length o b (ht b), List.length_take]
        have := ih (rest.drop 100) (b + 1)
          (acc ++ embedMultiple o b ((rest.take 100).map (·.content))) es
          (by simp only [ceilDiv, List.length_drop] at hfuel ⊢; omega)
          (by rw [List.length_append, hlb]; simp only [List.length_drop]; omega)
          hok
        rw [List.length_append, hlb] at this
        simp only [List.length_drop] at this
        omega

/-- C1 (amended): after a successful (non-throwing) run of the Google
RAG indexing pipeline in which no embedding sub-batch hit the internal
30-second timeout of embedMultiple and at most 4000 chunks were indexed,
the chunk list and the embedding list have equal length; and, for any
corpus state, isRAGAvailable returns true exactly when both lists are
non-empty. -/
theorem grsIndexFiles_aligned (o : EmbedOracle) (fmTimeout : Bool) (batchTimeout : Nat → Bool)
    (newChunks : List Chunk) (st : GRSState)
    (hemb : ∀ b i, o.timeoutAt b i = false)
    (hlen : newChunks.length ≤ GRS_MAX_EMBEDDINGS)
    (hok : grsIndexFiles o fmTimeout batchTimeout newChunks = .ok st) :
    st.chunks.length = st.embeddings.length ∧
    (grsIsRAGAvailable st = true ↔ st.chunks ≠ [] ∧ st.embeddings ≠ []) := by
  constructor
  · have hnc : ¬ newChunks.length > GRS_MAX_CHUNKS := by
      simp only [GRS_MAX_CHUNKS]
      simp only [GRS_MAX_EMBEDDINGS] at hlen
      omega
    simp only [grsIndexFiles] at hok
    rw [if_neg hnc] at hok
    split at hok
    · cases hok
    · split at hok
      · split at hok
        · rename_i es heq
          cases hok
          have hlen2 : ([] : List (List ℚ)).length + newChunks.length ≤ GRS_MAX_EMBEDDINGS := by
            simpa using hlen
          have := grsEmbedGo_ok_length o batchTimeout hemb (ceilDiv newChunks.length 100)
            newChunks 0 [] es (le_refl _) hlen2 (by simpa [grsEmbedBatches] using heq)
          simpa using this.symm
        · cases hok
      · rename_i hz
        cases hok
        simp only [List.length_nil]
        omega
  · simp only [grsIsRAGAvailable, Bool.and_eq_true, decide_eq_true_eq,
      List.length_pos, gt_iff_lt]

/-- Counterexample against C1 as stated: a successful, non-throwing run
in which the single embedding sub-batch hits the internal embedMultiple
timeout finishes with one chunk and zero embeddings. -/
theorem grsIndexFiles_aligned_counterexample :
    grsIndexFiles ⟨fun _ _ => true, fun _ _ => []⟩ false (fun _ => false)
        [Chunk.mk ("c-0") ("hello") ("f") ("f.txt") 0 5] =
      .ok ⟨[Chunk.mk ("c-0") ("hello") ("f") ("f.txt") 0 5], []⟩ ∧
    ([Chunk.mk ("c-0") ("hello") ("f") ("f.txt") 0 5].length ≠ ([] : List (List ℚ)).length) :=
  ⟨rfl, by decide⟩

/-- Witness for C1 at a one-chunk corpus with a well-behaved provider. -/
theorem grsIndexFiles_aligned_witness :
    (GRSState.mk [Chunk.mk ("c-0") ("hello") ("f") ("f.txt") 0 5] [[1]]).chunks.length =
      (GRSState.mk [Chunk.mk ("c-0") ("hello") ("f") ("f.txt") 0 5] [[1]]).embeddings.length :=
  (grsIndexFiles_aligned ⟨fun _ _ => false, fun _ _ => [1]⟩ false (fun _ => false)
    [Chunk.mk ("c-0") ("hello") ("f") ("f.txt") 0 5] _
    (fun _ _ => rfl) (by decide) rfl).1

/-! ### Claim C6 -/

theorem processFileInBatches_fileId {g : FileInfo} {c : Chunk}
    (hc : c ∈ processFileInBatches g) : c.fileId = g.id :=
  chunkLoop_fileId _ _ _ _ _ _ _ c hc

theorem filter_processFileInBatches_ne {g : FileInfo} {i : String} (h : g.id ≠ i) :
    (processFileInBatches g).filter (fun c => c.fileId == i) = [] := by
  apply List.filter_eq_nil.mpr
  intro c hc
  simp only [processFileInBatches_fileId hc, beq_iff_eq]
  exact h

theorem filter_processFileInBatches_self (f : FileInfo) :
    (processFileInBatches f).filter (fun c => c.fileId == f.id) = processFileInBatches f := by
  apply List.filter_eq_self.mpr
  intro c hc
  simp only [processFileInBatches_fileId hc, beq_self_eq_true]

theorem fmProcessFile_cases (chunks : List Chunk) (g : FileInfo) :
    ∃ Z, (fmProcessFile chunks g).1 = chunks ++ Z ∧
      (Z = [] ∨ Z = processFileInBatches g) := by
  simp only [fmProcessFile]
  split_ifs
  · exact ⟨[], by simp, Or.inl rfl⟩
  · exact ⟨[], by simp, Or.inl rfl⟩
  · exact ⟨[], by simp, Or.inl rfl⟩
  · exact ⟨processFileInBatches g, rfl, Or.inr rfl⟩

theorem fmFold_filter (f : FileInfo) :
    ∀ (batch : List FileInfo) (acc : List Chunk × List FileInfo),
      ((batch.map (·.id)).Nodup) →
      ∃ X, (batch.foldl fmBatchStep acc).1 = acc.1 ++ X ∧
        ((∀ g ∈ batch, g.id ≠ f.id) → X.filter (fun c => c.fileId == f.id) = []) ∧
        (f ∈ batch →
          X.filter (fun c => c.fileId == f.id) = processFileInBatches f ∨
          X.filter (fun c => c.fileId == f.id) = []) := by
  intro batch
  induction batch with
  | nil =>
    intro acc _
    exact ⟨[], by simp, fun _ => rfl, by simp⟩
  | cons g batch ih =>
    intro acc hnd
    simp only [List.map_cons, List.nodup_cons] at hnd
    obtain ⟨hgid, hnd2⟩ := hnd
    obtain ⟨Z, hZ1, hZ2⟩ := fmProcessFile_cases acc.1 g
    obtain ⟨X, hX1, hX2, hX3⟩ := ih (fmBatchStep acc g) hnd2
    have hstep : (fmBatchStep acc g).1 = acc.1 ++ Z := by
      simpa [fmBatchStep] using hZ1
    refine ⟨Z ++ X, ?_, ?_, ?_⟩
    · rw [List.foldl_cons, hX1, hstep, List.append_assoc]
    · intro hall
      have hg : g.id ≠ f.id := hall g (List.mem_cons_self g batch)
      have hZf : Z.filter (fun c => c.fileId == f.id) = [] := by
        rcases hZ2 with rfl | rfl
        · rfl
        · exact filter_processFileInBatches_ne hg
      rw [List.filter_append, hZf,
        hX2 (fun g2 hg2 => hall g2 (List.mem_cons_of_mem _ hg2))]
      rfl
    · intro hf
      rw [List.filter_append]
      rcases List.mem_cons.mp hf with rfl | hf2
      · have hX0 : X.filter (fun c => c.fileId == f.id) = [] := by
          apply hX2
          intro g2 hg2 heq
          exact hgid (heq ▸ List.mem_map_of_mem _ hg2)
        rcases hZ2 with rfl | rfl
        · rw [hX0]
          exact Or.inr rfl
        · rw [filter_processFileInBatches_self, hX0, List.append_nil]
          exact Or.inl rfl
      · have hg : g.id ≠ f.id := by
          intro heq
          exact hgid (heq ▸ List.mem_map_of_mem _ hf2)
        have hZf : Z.filter (fun c => c.fileId == f.id) = [] := by
          rcases hZ2 with rfl | rfl
          · rfl
          · exact filter_processFileInBatches_ne hg
        rw [hZf]
        simpa using hX3 hf2

theorem fmIndexGo_filter (timeoutAt : Nat → Bool) (f : FileInfo) :
    ∀ (fuel : Nat) (rest : List FileInfo) (b : Nat) (acc : List Chunk × List FileInfo),
      ((rest.map (·.id)).Nodup) →
      ∃ X, (fmIndexGo timeoutAt fuel rest b acc).1 = acc.1 ++ X ∧
        ((∀ g ∈ rest, g.id ≠ f.id) → X.filter (fun c => c.fileId == f.id) = []) ∧
        (f ∈ rest →
          X.filter (fun c => c.fileId == f.id) = processFileInBatches f ∨
          X.filter (fun c => c.fileId == f.id) = []) := by
  intro fuel
  induction fuel with
  | zero =>
    intro rest b acc _
    exact ⟨[], by simp [fmIndexGo], fun _ => rfl, fun _ => Or.inr rfl⟩
  | succ m ih =>
    intro rest b acc hnd
    simp only [fmIndexGo]
    split
    · exact ⟨[], by simp, fun _ => rfl, fun _ => Or.inr rfl⟩
    · have hsplit := List.take_append_drop 5 rest
      have hnd2 : (((rest.take 5) ++ (rest.drop 5)).map (·.id)).Nodup := by
        rw [hsplit]; exact hnd
      rw [List.map_append, List.nodup_append] at hnd2
      obtain ⟨hndt, hndd, hdisj⟩ := hnd2
      obtain ⟨X₁, h11, h12, h13⟩ := fmFold_filter f (rest.take 5) acc hndt
      obtain ⟨X₂, h21, h22, h23⟩ :=
        ih (rest.drop 5) (b + 1) ((rest.take 5).foldl fmBatchStep acc) hndd
      refine ⟨X₁ ++ X₂, ?_, ?_, ?_⟩
      · rw [h21, h11, List.append_assoc]
      · intro hall
        rw [List.filter_append,
          h12 (fun g hg => hall g ((List.take_sublist 5 rest).subset hg)),
          h22 (fun g hg => hall g ((List.drop_sublist 5 rest).subset hg))]
        rfl
      · intro hf
        have hf' : f ∈ rest.take 5 ++ rest.drop 5 := by rw [hsplit]; exact hf
        rcases List.mem_append.mp hf' with hf1 | hf2
        · have h22z : X₂.filter (fun c => c.fileId == f.id) = [] := by
            apply h22
            intro g hg heq
            exact hdisj (List.mem_map_of_mem _ hf1) (heq ▸ List.mem_map_of_mem _ hg)
          rw [List.filter_append, h22z, List.append_nil]
          exact h13 hf1
        · have h12z : X₁.filter (fun c => c.fileId == f.id) = [] := by
            apply h12
            intro g hg heq
            exact hdisj (heq ▸ List.mem_map_of_mem _ hg) (List.mem_map_of_mem _ hf2)
          rw [List.filter_append, h12z]
          simpa using h23 hf2

/-- C6 (amended): inside the file manager, chunk admission is
all-or-nothing per document: for every file of a registry with distinct
ids, the indexed corpus contains either every chunk of that file or none
of them, under any timeout behaviour. -/
theorem fmIndexFiles_allOrNothing (timeoutAt : Nat → Bool) (files : List FileInfo)
    (f : FileInfo) (hf : f ∈ files) (hnd : (files.map (·.id)).Nodup) :
    (fmIndexFiles timeoutAt files).1.filter (fun c => c.fileId == f.id) =
      processFileInBatches f ∨
    (fmIndexFiles timeoutAt files).1.filter (fun c => c.fileId == f.id) = [] := by
  obtain ⟨X, h1, h2, h3⟩ :=
    fmIndexGo_filter timeoutAt f (ceilDiv files.length 5) files 0 ([], []) hnd
  simp only [fmIndexFiles]
  rw [h1]
  simpa using h3 hf

/-- Witness for C6 at a concrete one-file registry. -/
theorem fmIndexFiles_allOrNothing_witness :
    (fmIndexFiles (fun _ => false) [FileInfo.mk ("A") ("a.txt") 1 ("x") 1 false none]).1.filter
        (fun c => c.fileId == (FileInfo.mk ("A") ("a.txt") 1 ("x") 1 false none).id) =
      processFileInBatches (FileInfo.mk ("A") ("a.txt") 1 ("x") 1 false none) ∨
    (fmIndexFiles (fun _ => false) [FileInfo.mk ("A") ("a.txt") 1 ("x") 1 false none]).1.filter
        (fun c => c.fileId == (FileInfo.mk ("A") ("a.txt") 1 ("x") 1 false none).id) = [] :=
  fmIndexFiles_allOrNothing _ _ _ (List.mem_singleton.mpr rfl) (by simp)

theorem filter_replicate_of_neg {p : Chunk → Bool} {a : Chunk} (h : p a = false) :
    ∀ n, (List.replicate n a).filter p = [] := by
  intro n
  induction n with
  | zero => rfl
  | succ m ih => simp [List.replicate_succ, List.filter_cons, h, ih]

theorem grsEmbedGo_isOk (o : EmbedOracle) (bt : Nat → Bool) (hbt : ∀ b, bt b = false) :
    ∀ fuel (rest : List Chunk) (b : Nat) (acc : List (List ℚ)),
      ∃ es, grsEmbedGo o bt fuel rest b acc = .ok es := by
  intro fuel
  induction fuel with
  | zero => intro rest b acc; exact ⟨acc, rfl⟩
  | succ m ih =>
    intro rest b acc
    simp only [grsEmbedGo, hbt b, Bool.false_eq_true, if_false]
    split
    · exact ⟨_, rfl⟩
    · exact ih _ _ _

theorem grsIndexFiles_take_partial (n : Nat) (cA b1 b2 : Chunk) (o : EmbedOracle)
    (h8 : n + 1 = GRS_MAX_CHUNKS) (hA : (cA.fileId == ("B" : String)) = false)
    (hB1 : (b1.fileId == ("B" : String)) = true)
    (hB2 : (b2.fileId == ("B" : String)) = true) :
    (grsIndexFiles o false (fun _ => false) (List.replicate n cA ++ [b1, b2])).map
      (fun st => st.chunks.filter (fun c => c.fileId == ("B" : String))) = .ok [b1] ∧
    (List.replicate n cA ++ [b1, b2]).filter (fun c => c.fileId == ("B" : String)) =
      [b1, b2] := by
  have hlen : (List.replicate n cA ++ [b1, b2]).length = n + 2 := by
    simp [List.length_replicate]
  have hrepl : (List.replicate n cA).length = n := List.length_replicate n cA
  have htake : (List.replicate n cA ++ [b1, b2]).take (n + 1) =
      List.replicate n cA ++ [b1] := by
    rw [List.take_append_eq_append_take, hrepl]
    congr 1
    · exact List.take_of_length_le (by omega)
    · have h1 : n + 1 - n = 1 := by omega
      rw [h1]
      rfl
  have hfrep := filter_replicate_of_neg (p := fun c => c.fileId == ("B" : String))
    (a := cA) hA
  constructor
  · obtain ⟨es, hes⟩ := grsEmbedGo_isOk o (fun _ => false) (fun _ => rfl)
      (ceilDiv (List.replicate n cA ++ [b1]).length 100)
      (List.replicate n cA ++ [b1]) 0 []
    simp only [grsIndexFiles, grsEmbedBatches, hlen, ← h8]
    rw [if_neg Bool.false_ne_true, if_pos (by omega : n + 2 > n + 1), htake,
      if_pos (by simp [List.length_replicate] : (List.replicate n cA ++ [b1]).length > 0),
      hes]
    simp [Except.map, List.filter_append, hfrep n, List.filter_cons, hB1]
  · rw [List.filter_append, hfrep n]
    simp [List.filter_cons, hB1, hB2]

/-- Counterexample against C6 as stated for the whole index() pipeline:
with 8001 chunks coming out of the file manager (7999 for document A,
then two for document B), createGoogleRAGService.indexFiles truncates
the corpus to the first 8000 chunks, so exactly one of the two chunks of
document B is admitted: a partial admission of a document that is not
marked failed. -/
theorem grsIndexFiles_partial_admission :
    (grsIndexFiles ⟨fun _ _ => false, fun _ _ => [1]⟩ false (fun _ => false)
        (List.replicate 7999 (Chunk.mk ("A-0") ("aaa") ("A") ("a.txt") 0 3) ++
          [Chunk.mk ("B-0") ("b1") ("B") ("b.txt") 0 2,
            Chunk.mk ("B-1") ("b2") ("B") ("b.txt") 1 3])).map
        (fun st => st.chunks.filter (fun c => c.fileId == ("B" : String))) =
      .ok [Chunk.mk ("B-0") ("b1") ("B") ("b.txt") 0 2] ∧
    (List.replicate 7999 (Chunk.mk ("A-0") ("aaa") ("A") ("a.txt") 0 3) ++
        [Chunk.mk ("B-0") ("b1") ("B") ("b.txt") 0 2,
          Chunk.mk ("B-1") ("b2") ("B") ("b.txt") 1 3]).filter
        (fun c => c.fileId == ("B" : String)) =
      [Chunk.mk ("B-0") ("b1") ("B") ("b.txt") 0 2,
        Chunk.mk ("B-1") ("b2") ("B") ("b.txt") 1 3] :=
  grsIndexFiles_take_partial 7999 _ _ _ _ (by norm_num [GRS_MAX_CHUNKS]) rfl rfl rfl
